import Mathlib

set_option linter.unusedVariables false

/-! Shallow embedding of the libssg build-state engine, translated from
    src/lib.rs, src/renderers.rs and src/compilers.rs. Paths are modelled as
    component lists with an absoluteness flag, the filesystem and external
    processes as oracle functions, and the IndexMap containers as
    insertion-ordered association lists. -/

/-- Model of a Rust PathBuf: an absoluteness flag plus the list of normal
    components, as produced by Path components. -/
structure FsPath where
  absolute : Bool
  comps : List String
deriving DecidableEq

/-- Model of PathBuf push and Path join: pushing an absolute path replaces
    the buffer, pushing a relative path appends its components. -/
def FsPath.join (p q : FsPath) : FsPath :=
  if q.absolute then q else ⟨p.absolute, p.comps ++ q.comps⟩

/-- Model of PathBuf pop: truncate to the parent, a no-op on a root or empty
    path, matching pop returning false there. -/
def FsPath.pop (p : FsPath) : FsPath :=
  ⟨p.absolute, p.comps.dropLast⟩

/-- Repeated pop, modelling the cleanup loops in check_mtime and finish. -/
def popTimes : Nat → FsPath → FsPath
  | 0, p => p
  | n + 1, p => popTimes n p.pop

/-- Model of Path components count: a root counts as one component. -/
def FsPath.componentsCount (p : FsPath) : Nat :=
  (if p.absolute then 1 else 0) + p.comps.length

/-- Model of Path parent as used with unwrap in the source; the source panics
    on a rootless empty path, a case no claim exercises. -/
def FsPath.parent (p : FsPath) : FsPath :=
  ⟨p.absolute, p.comps.dropLast⟩

/-- Model of Path display, used only to build strings. -/
def FsPath.display (p : FsPath) : String :=
  (if p.absolute then "/" else "") ++ String.intercalate "/" p.comps

/-- Component-wise prefix removal for stripPrefixOf. -/
def stripComps : List String → List String → Option (List String)
  | [], l => some l
  | _ :: _, [] => Option.none
  | a :: as_, b :: bs => if a = b then stripComps as_ bs else Option.none

/-- Model of Path strip_prefix: succeeds when the absoluteness flags agree and
    the base components are a prefix; the result is relative. -/
def FsPath.stripPrefixOf (p base : FsPath) : Option FsPath :=
  if p.absolute = base.absolute then
    (stripComps base.comps p.comps).map (fun rest => ⟨false, rest⟩)
  else Option.none

/-- Model of IndexMap insert: if the key is present the value is replaced in
    place (the entry keeps its position), otherwise the pair is appended. -/
def indexInsert {κ α : Type} [DecidableEq κ] (k : κ) (v : α) :
    List (κ × α) → List (κ × α)
  | [] => [(k, v)]
  | (k0, v0) :: rest =>
    if k0 = k then (k0, v) :: rest else (k0, v0) :: indexInsert k v rest

/-- Model of IndexMap lookup: first entry with the given key. -/
def indexLookup {κ α : Type} [DecidableEq κ] (k : κ) :
    List (κ × α) → Option α
  | [] => Option.none
  | (k0, v0) :: rest => if k0 = k then some v0 else indexLookup k rest

/-- Number of entries stored under a key. -/
def countKey {κ α : Type} [DecidableEq κ] (k : κ) (l : List (κ × α)) : Nat :=
  (l.filter (fun e => decide (e.1 = k))).length

/-- Model of snapshots entry or_default followed by push. -/
def snapshotPush {α : Type} (k : String) (u : α) :
    List (String × List α) → List (String × List α)
  | [] => [(k, [u])]
  | (k0, v0) :: rest =>
    if k0 = k then (k0, v0 ++ [u]) :: rest else (k0, v0) :: snapshotPush k u rest

/-- Stable insertion into a list ordered by a numeric key: the new element is
    placed before the first element whose key is not smaller. -/
def insertByKey {α : Type} (key : α → Nat) (x : α) : List α → List α
  | [] => [x]
  | y :: ys => if key y < key x then y :: insertByKey key x ys else x :: y :: ys

/-- Stable sort by a numeric key, modelling IndexMap sort_by, which is
    documented to be a stable sort. -/
def sortByKey {α : Type} (key : α → Nat) : List α → List α
  | [] => []
  | x :: xs => insertByKey key x (sortByKey key xs)

/-- Artifact identifiers: uuid_from_path derives a version 3 UUID from the
    path bytes; the hash is modelled by its input bytes, which is injective
    where the real hash is collision-free. -/
structure Uuid where
  bytes : FsPath
deriving DecidableEq

/-- Create a Uuid from a path, from uuid_from_path in src/lib.rs. -/
def uuid_from_path (path : FsPath) : Uuid := ⟨path⟩

/-- Metadata maps from compilers: ordered string key-value pairs. -/
abbrev Metadata := List (String × String)

/-- Renderer from src/renderers.rs. The Custom variant wraps an opaque boxed
    closure in the source; it is modelled as a bare tag because the engine
    only inspects the tag, and its output is supplied by the world oracle. -/
inductive Renderer where
  | loadAndApplyTemplate (path : List String)
  | pipeline (list : List Renderer)
  | custom
  | none

/-- BuildArtifact from src/lib.rs; timestamps are naturals, modified_date is
    optional exactly as in the source. -/
structure BuildArtifact where
  uuid : Uuid
  path : FsPath
  resource : FsPath
  metadata : Metadata
  contents : String
  modified_date : Option Nat
  updated_date : Nat

/-- BuildAction from src/lib.rs; the second field is named to in the source,
    which is a reserved word here. -/
structure BuildAction where
  src : Uuid
  toR : Renderer

/-- Observable events of the commit phase, used to state ordering and copy
    safety: processed marks the start of handling one action, wrote a
    rendered file creation, copied a verbatim byte copy with its exact
    source and destination arguments. -/
inductive FinishEvent where
  | processed (dest : FsPath) (src : Uuid)
  | wrote (dest : FsPath)
  | copied (src dest : FsPath)
deriving DecidableEq

/-- Oracle for the filesystem and external processes: existence and mtimes
    for staleness checks, the git log date query (Option.none when the
    command fails or its output does not parse), success of directory
    creation, file creation, writing and copying during commit, and the
    output of an opaque custom renderer closure. -/
structure World where
  pathExists : FsPath → Bool
  mtime : FsPath → Option Nat
  gitDate : FsPath → Option Nat
  createDirAllOk : FsPath → Bool
  createFileOk : FsPath → Bool
  writeOk : FsPath → Bool
  copyOk : FsPath → FsPath → Bool
  customRender : Metadata → Except String String

/-- State from src/lib.rs. The minijinja template environment is an external
    backend, modelled by two oracle fields; printing is omitted. -/
structure State where
  snapshots : List (String × List Uuid)
  artifacts : List (Uuid × BuildArtifact)
  build_actions : List (FsPath × BuildAction)
  templatesHas : List String → Bool
  templatesRender : List String → Metadata → Except String String
  templates_dir : FsPath
  output_dir : FsPath
  output_dirname : String
  current_dir : FsPath
  err : Option String
  force_generate : Bool
  verbosity : Nat
  url_root : FsPath

/-- State check_mtime from src/lib.rs lines 283 to 316: resolve the resource
    under the current directory, return true at once under the force flag,
    push dest onto the output directory buffer, default the answer to true,
    answer false only when the destination exists and both mtimes are
    readable and the source mtime is not greater, then pop back as many
    components as the push added. -/
def State.check_mtime (w : World) (s : State) (dest resource : FsPath) :
    Bool × State :=
  let resource := s.current_dir.join resource
  if s.force_generate then (true, s)
  else
    let fs_depth := s.output_dir.componentsCount
    let probe := s.output_dir.join dest
    let ret : Bool :=
      if w.pathExists probe then
        match w.mtime probe with
        | some out_mtime =>
          match w.mtime resource with
          | some src_mtime => decide (out_mtime < src_mtime)
          | Option.none => true
        | Option.none => true
      else true
    (ret, { s with output_dir := popTimes (probe.componentsCount - fs_depth) probe })

/-- State add_snapshot from src/lib.rs lines 273 to 275: entry or_default,
    creating an empty snapshot when the key is absent. -/
def State.add_snapshot (s : State) (key : String) : State :=
  if (indexLookup key s.snapshots).isSome then s
  else { s with snapshots := s.snapshots ++ [(key, [])] }

/-- State add_to_snapshot from src/lib.rs lines 278 to 280: entry or_default
    followed by push. -/
def State.add_to_snapshot (s : State) (key : String) (artifact : Uuid) : State :=
  { s with snapshots := snapshotPush key artifact s.snapshots }

/-- Fold of add_to_snapshot over a list of identifiers, in order. -/
def addAllToSnapshot (s : State) (key : String) (us : List Uuid) : State :=
  us.foldl (fun s0 u => s0.add_to_snapshot key u) s

/-- Error message of the rss_feed compiler for an unknown snapshot key, from
    src/compilers.rs line 254. -/
def noSnapshotMsg (key : String) : String :=
  "There are no snapshots with key `" ++ key ++
    "`, is the source rule empty (ie producing no items) or have you typed the name wrong?"

/-- Snapshot read performed by the rss_feed compiler in src/compilers.rs
    lines 252 to 257: fail when the key is not in the snapshot index,
    otherwise return the stored identifier sequence; the feed formatting
    that follows is an external concern. -/
def readSnapshotRss (s : State) (key : String) : Except String (List Uuid) :=
  match indexLookup key s.snapshots with
  | Option.none => Except.error (noSnapshotMsg key)
  | some v => Except.ok v

/-- State copy_page from src/lib.rs lines 319 to 381: derive the identifier
    from the resource path as given, read the best-effort modified date, query
    the git date, then either enqueue a copy action plus artifact when stale,
    or record a cached artifact whose resource field is the destination. The
    source returns Uuid and panics via unwrap when the git date query fails or
    its output does not parse; that panic is modelled as an error outcome. -/
def State.copy_page (w : World) (s : State) (resource dest : FsPath) :
    Except String (Uuid × State) :=
  let uuid := uuid_from_path resource
  let modified_date := w.mtime (s.current_dir.join resource)
  match w.gitDate resource with
  | Option.none =>
    Except.error ("panic: Could not parse git date for " ++ FsPath.display resource)
  | some updated_date =>
    let pr := State.check_mtime w s dest resource
    let s := pr.2
    if pr.1 then
      let s := { s with
        build_actions := indexInsert dest ⟨uuid, Renderer.none⟩ s.build_actions }
      let s := { s with
        artifacts := indexInsert uuid
          ⟨uuid, dest, resource, [], "", modified_date, updated_date⟩ s.artifacts }
      Except.ok (uuid, s)
    else
      let s := { s with
        artifacts := indexInsert uuid
          ⟨uuid, dest, dest, [], "", modified_date, updated_date⟩ s.artifacts }
      Except.ok (uuid, s)

/-- Resource normalization at the top of add_page, src/lib.rs lines 392 to
    395: strip the parent of the output directory, keeping the path as given
    when stripping fails. -/
def State.normalizeResource (s : State) (resource : FsPath) : FsPath :=
  match resource.stripPrefixOf s.output_dir.parent with
  | some r => r
  | Option.none => resource

mutual
/-- Renderer check_mtime from src/renderers.rs lines 75 to 84, threading the
    state exactly as the mutable borrow does: a template stage compares the
    template file under the templates directory, a pipeline is stale when any
    stage is, and the Custom and None variants answer true unconditionally. -/
def Renderer.check_mtime (w : World) : Renderer → State → FsPath → Bool × State
  | Renderer.loadAndApplyTemplate p, s, dest_path =>
    State.check_mtime w s dest_path (s.templates_dir.join ⟨false, p⟩)
  | Renderer.pipeline list, s, dest_path => checkMtimeAny w list s dest_path
  | Renderer.custom, s, _ => (true, s)
  | Renderer.none, s, _ => (true, s)

/-- Short-circuiting any over the stages of a pipeline. -/
def checkMtimeAny (w : World) : List Renderer → State → FsPath → Bool × State
  | [], s, _ => (false, s)
  | r :: rest, s, dest_path =>
    let pr := Renderer.check_mtime w r s dest_path
    if pr.1 then (true, pr.2) else checkMtimeAny w rest pr.2 dest_path
end

/-- The staleness disjunction of add_page, src/lib.rs line 416: source
    staleness first, the renderer pipeline checked only when the first test
    fails, matching the short-circuit of the boolean or. -/
def stalePair (w : World) (s : State) (dest resource : FsPath)
    (renderer : Renderer) : Bool × State :=
  let pr := State.check_mtime w s dest resource
  if pr.1 then (true, pr.2) else Renderer.check_mtime w renderer pr.2 dest

/-- State templates_render from src/lib.rs lines 479 to 494: template lookup
    failure propagates, backend render failure is wrapped with the template
    identifier. -/
def State.templates_render (s : State) (template_path : List String)
    (context : Metadata) : Except String String :=
  if s.templatesHas template_path then
    match s.templatesRender template_path context with
    | Except.ok out => Except.ok out
    | Except.error e =>
      Except.error ("Encountered error when trying to render with template `" ++
        String.intercalate "/" template_path ++ "`: " ++ e)
  else Except.error "template not found"

mutual
/-- Renderer render from src/renderers.rs lines 86 to 104; the context map is
    threaded in place of the mutable borrow, and the opaque Custom closure
    output comes from the world oracle. -/
def Renderer.render (w : World) (s : State) :
    Renderer → Metadata → Except String (String × Metadata)
  | Renderer.loadAndApplyTemplate p, context =>
    match State.templates_render s p context with
    | Except.ok out => Except.ok (out, context)
    | Except.error e => Except.error e
  | Renderer.pipeline list, context => renderPipeline w s list context
  | Renderer.custom, context =>
    match w.customRender context with
    | Except.ok out => Except.ok (out, context)
    | Except.error e => Except.error e
  | Renderer.none, context => Except.ok ("", context)

/-- Pipeline loop: the output of each stage except the last is fed back into
    the context under the body key; the last stage output is the result; an
    empty pipeline yields the empty string. -/
def renderPipeline (w : World) (s : State) :
    List Renderer → Metadata → Except String (String × Metadata)
  | [], context => Except.ok ("", context)
  | [stage], context => Renderer.render w s stage context
  | stage :: rest, context =>
    match Renderer.render w s stage context with
    | Except.error e => Except.error e
    | Except.ok (new_body, context) =>
      renderPipeline w s rest (indexInsert "body" new_body context)
end

/-- State add_page from src/lib.rs lines 385 to 466: normalize the resource,
    derive the identifier from the normalized path, invoke the compiler
    unconditionally, read the best-effort modified date, query the git date
    with error propagation, then insert the artifact and, exactly when the
    staleness disjunction holds, also insert a build action for the
    destination. -/
def State.add_page (w : World) (s : State) (dest resource : FsPath)
    (compiler : State → FsPath → Except String (Metadata × State))
    (renderer : Renderer) : Except String (Uuid × State) :=
  let resource := State.normalizeResource s resource
  let uuid := uuid_from_path resource
  match compiler s resource with
  | Except.error e => Except.error e
  | Except.ok (metadata, s) =>
    let modified_date := w.mtime (s.current_dir.join resource)
    match w.gitDate resource with
    | Option.none =>
      Except.error ("Could not parse git date for " ++ FsPath.display resource)
    | some updated_date =>
      let art : BuildArtifact :=
        ⟨uuid, dest, resource, metadata, "", modified_date, updated_date⟩
      let pr := stalePair w s dest resource renderer
      let s := pr.2
      if pr.1 then
        let s := { s with artifacts := indexInsert uuid art s.artifacts }
        let s := { s with
          build_actions := indexInsert dest ⟨uuid, renderer⟩ s.build_actions }
        Except.ok (uuid, s)
      else
        let s := { s with artifacts := indexInsert uuid art s.artifacts }
        Except.ok (uuid, s)

/-- Placeholder artifact standing for the panic of indexing an IndexMap with
    an absent key; reachable states always have the key present. -/
def panicArtifact : BuildArtifact :=
  ⟨⟨⟨false, []⟩⟩, ⟨false, []⟩, ⟨false, []⟩, [], "", Option.none, 0⟩

/-- Artifact lookup by identifier, as the IndexMap indexing in finish. -/
def lookupArtifact (arts : List (Uuid × BuildArtifact)) (u : Uuid) :
    BuildArtifact :=
  match indexLookup u arts with
  | some a => a
  | Option.none => panicArtifact

/-- The updated_date of the artifact stored under an identifier. -/
def updatedOf (arts : List (Uuid × BuildArtifact)) (u : Uuid) : Nat :=
  (lookupArtifact arts u).updated_date

/-- The artifact store sorted by updated_date, first sort in finish,
    src/lib.rs lines 510 to 511. -/
def State.sortedArtifacts (s : State) : List (Uuid × BuildArtifact) :=
  sortByKey (fun e => e.2.updated_date) s.artifacts

/-- Sort key of a queue entry in the second sort of finish: the updated_date
    of the artifact of the action, looked up in the already sorted store,
    src/lib.rs lines 512 to 516. -/
def actionKey (s : State) (e : FsPath × BuildAction) : Nat :=
  updatedOf (State.sortedArtifacts s) e.2.src

/-- The action queue as sorted by finish: stable sort by the artifact
    updated_date, ties keeping the insertion order of the queue. -/
def State.sortedActions (s : State) : List (FsPath × BuildAction) :=
  sortByKey (actionKey s) s.build_actions

/-- One iteration of the drain loop of finish, src/lib.rs lines 522 to 570:
    look up the artifact, clone its metadata and inject ROOT_PREFIX, render
    unless the action is a verbatim copy, make an absolute destination
    relative to the working directory, push it onto the output directory
    buffer, create parent directories, then write the rendered bytes or, after
    the assert that the copy source differs from the pushed destination, copy
    the bytes; only the successful exits pop the buffer back. The inr result
    carries the error and the state as left behind, the inl result the state
    and the observable write or copy event. -/
def finishStep (w : World) (fs_depth : Nat) (path : FsPath)
    (action : BuildAction) (s : State) :
    (State × FinishEvent) ⊕ (String × State) :=
  let artifact := lookupArtifact s.artifacts action.src
  let metadata := indexInsert "ROOT_PREFIX" (FsPath.display s.url_root)
    artifact.metadata
  match (match action.toR with
         | Renderer.none => Except.ok (Option.none, metadata)
         | r =>
           match Renderer.render w s r metadata with
           | Except.ok pr => Except.ok (some pr.1, pr.2)
           | Except.error e => Except.error e) with
  | Except.error e => Sum.inr (e, s)
  | Except.ok (contents, _metadata2) =>
    match (if path.absolute then FsPath.stripPrefixOf path s.current_dir
           else some path) with
    | Option.none => Sum.inr ("StripPrefixError", s)
    | some rel =>
      let s := { s with output_dir := s.output_dir.join rel }
      if w.createDirAllOk s.output_dir.parent = false then
        Sum.inr ("create_dir_all failed", s)
      else
        match contents with
        | some _contents =>
          if w.createFileOk s.output_dir = false then
            Sum.inr ("file create failed", s)
          else if w.writeOk s.output_dir = false then
            Sum.inr ("write_all failed", s)
          else
            let ev := FinishEvent.wrote s.output_dir
            let s := { s with output_dir := popTimes (s.output_dir.componentsCount - fs_depth) s.output_dir }
            Sum.inl (s, ev)
        | Option.none =>
          let src_path := (lookupArtifact s.artifacts action.src).resource
          if src_path = s.output_dir then
            Sum.inr ("assertion failed: src_path != output_dir", s)
          else if w.copyOk src_path s.output_dir = false then
            Sum.inr ("fs copy failed", s)
          else
            let ev := FinishEvent.copied src_path s.output_dir
            let s := { s with output_dir := popTimes (s.output_dir.componentsCount - fs_depth) s.output_dir }
            Sum.inl (s, ev)

/-- Drain loop of finish over the sorted actions; each iteration logs the
    processed event first, then runs the step; a step error aborts with the
    state as the step left it. -/
def finishLoop (w : World) (fs_depth : Nat) :
    List (FsPath × BuildAction) → State → List FinishEvent →
    Except String Unit × State × List FinishEvent
  | [], s, acc => (Except.ok (), s, acc)
  | (path, action) :: rest, s, acc =>
    let acc := acc ++ [FinishEvent.processed path action.src]
    match finishStep w fs_depth path action s with
    | Sum.inl (s2, ev) => finishLoop w fs_depth rest s2 (acc ++ [ev])
    | Sum.inr (e, s2) => (Except.error e, s2, acc)

/-- State finish from src/lib.rs lines 497 to 572: a latched error is taken
    and returned, an empty queue is an informational no-op, otherwise the
    artifacts are sorted, the queue is sorted stably by artifact updated_date,
    drained once, and processed in order. -/
def State.finish (w : World) (s : State) :
    Except String Unit × State × List FinishEvent :=
  match s.err with
  | some e => (Except.error e, { s with err := Option.none }, [])
  | Option.none =>
    if s.build_actions.isEmpty then (Except.ok (), s, [])
    else
      let sortedArts := State.sortedArtifacts s
      let sortedActs := State.sortedActions s
      let s := { s with artifacts := sortedArts, build_actions := [] }
      finishLoop w s.output_dir.componentsCount sortedActs s []

/-- Projection of an event log to the processed actions, in order. -/
def processedOf : List FinishEvent → List (FsPath × Uuid)
  | [] => []
  | FinishEvent.processed p u :: rest => (p, u) :: processedOf rest
  | _ :: rest => processedOf rest

/-- Whether an Except is a success. -/
def exceptOk {α : Type} : Except String α → Bool
  | Except.ok _ => true
  | Except.error _ => false

/-- Identifier component of a successful registration, with a default. -/
def okResUuid (e : Except String (Uuid × State)) (dflt : Uuid) : Uuid :=
  match e with
  | Except.ok pr => pr.1
  | Except.error _ => dflt

/-- State component of a successful registration, with a default. -/
def okResState (e : Except String (Uuid × State)) (dflt : State) : State :=
  match e with
  | Except.ok pr => pr.2
  | Except.error _ => dflt

/-- Base fixture state: empty stores, absolute project layout under
    /home/p, force off. -/
def baseState : State :=
  ⟨[], [], [], fun _ => false, fun _ _ => Except.error "no backend",
   ⟨true, ["home", "p", "templates"]⟩, ⟨true, ["home", "p", "_site"]⟩,
   "./_site/", ⟨true, ["home", "p"]⟩, Option.none, false, 0, ⟨false, []⟩⟩

/-- Fixture world where nothing exists on disk, the git date parses, and all
    commit operations succeed; every staleness check answers true. -/
def wStale : World :=
  ⟨fun _ => false, fun _ => Option.none, fun _ => some 7,
   fun _ => true, fun _ => true, fun _ => true, fun _ _ => true,
   fun _ => Except.ok ""⟩

/-- Fixture world where every path exists with the same mtime, so mtime
    comparison ties and nothing is stale; the git date parses and all commit
    operations succeed. -/
def wFresh : World :=
  ⟨fun _ => true, fun _ => some 5, fun _ => some 7,
   fun _ => true, fun _ => true, fun _ => true, fun _ _ => true,
   fun _ => Except.ok ""⟩

/-- Fixture world whose git date query never parses. -/
def wGitNone : World :=
  ⟨fun _ => false, fun _ => Option.none, fun _ => Option.none,
   fun _ => true, fun _ => true, fun _ => true, fun _ _ => true,
   fun _ => Except.ok ""⟩

/-- Fixture world where directory creation fails during commit. -/
def wDirFail : World :=
  ⟨fun _ => false, fun _ => Option.none, fun _ => some 7,
   fun _ => false, fun _ => true, fun _ => true, fun _ _ => true,
   fun _ => Except.ok ""⟩

/-- Fixture compiler returning fixed metadata without touching the state. -/
def compFix : State → FsPath → Except String (Metadata × State) :=
  fun s _ => Except.ok ([("body", "hello")], s)

/-- Fixture identifiers and artifacts for the commit fixtures. -/
def uuidA : Uuid := uuid_from_path ⟨false, ["srcfile"]⟩

/-- Artifact fixture with updated_date 3. -/
def artA : BuildArtifact :=
  ⟨uuidA, ⟨false, ["a"]⟩, ⟨false, ["srcfile"]⟩, [], "", some 1, 3⟩

/-- State fixture with one pending copy action. -/
def sCopy : State :=
  { baseState with
    artifacts := [(uuidA, artA)],
    build_actions := [(⟨false, ["a"]⟩, ⟨uuidA, Renderer.none⟩)] }

/-- Identifiers for the three-action ordering fixture. -/
def uuid1 : Uuid := uuid_from_path ⟨false, ["p1"]⟩

/-- Second identifier for the ordering fixture. -/
def uuid2 : Uuid := uuid_from_path ⟨false, ["p2"]⟩

/-- Third identifier for the ordering fixture. -/
def uuid3 : Uuid := uuid_from_path ⟨false, ["p3"]⟩

/-- State fixture with three copy actions whose artifacts carry updated
    dates 5, 3, 3 in insertion order, exercising the stable sort. -/
def sOrder : State :=
  { baseState with
    artifacts :=
      [(uuid1, ⟨uuid1, ⟨false, ["d1"]⟩, ⟨false, ["p1"]⟩, [], "", Option.none, 5⟩),
       (uuid2, ⟨uuid2, ⟨false, ["d2"]⟩, ⟨false, ["p2"]⟩, [], "", Option.none, 3⟩),
       (uuid3, ⟨uuid3, ⟨false, ["d3"]⟩, ⟨false, ["p3"]⟩, [], "", Option.none, 3⟩)],
    build_actions :=
      [(⟨false, ["d1"]⟩, ⟨uuid1, Renderer.none⟩),
       (⟨false, ["d2"]⟩, ⟨uuid2, Renderer.none⟩),
       (⟨false, ["d3"]⟩, ⟨uuid3, Renderer.none⟩)] }

/-- State fixture whose queue already holds an action for destination a,
    so that a second registration for a exercises replacement. -/
def sReplace : State :=
  { baseState with
    build_actions := [(⟨false, ["a"]⟩, ⟨uuidA, Renderer.custom⟩)] }

theorem popTimes_append (a : Bool) (l m : List String) :
    popTimes m.length ⟨a, l ++ m⟩ = ⟨a, l⟩ := by
  induction m using List.reverseRecOn with
  | nil => simp [popTimes]
  | append_singleton ms x ih =>
    rw [List.length_append, List.length_singleton, popTimes]
    have hpop : FsPath.pop ⟨a, l ++ (ms ++ [x])⟩ = ⟨a, l ++ ms⟩ := by
      simp [FsPath.pop, ← List.append_assoc]
    rw [hpop]
    exact ih

theorem join_rel_pop (p q : FsPath) (hq : q.absolute = false) :
    popTimes ((p.join q).componentsCount - p.componentsCount) (p.join q) = p := by
  have hj : p.join q = ⟨p.absolute, p.comps ++ q.comps⟩ := by
    simp [FsPath.join, hq]
  rw [hj]
  have h3 : FsPath.componentsCount ⟨p.absolute, p.comps ++ q.comps⟩ -
      p.componentsCount = q.comps.length := by
    simp [FsPath.componentsCount]
    omega
  rw [h3, popTimes_append]

theorem check_mtime_build_actions (w : World) (s : State)
    (dest resource : FsPath) :
    (State.check_mtime w s dest resource).2.build_actions = s.build_actions := by
  by_cases hf : s.force_generate <;> simp [State.check_mtime, hf]

/-- C1: the staleness check returns true exactly when the force flag is set,
    or the destination resolved under the output directory does not exist, or
    either modification time is unreadable, or both are readable and the
    source modification time is strictly greater; in particular equal times
    yield false. -/
theorem check_mtime_staleness_spec (w : World) (s : State)
    (dest resource : FsPath) :
    (State.check_mtime w s dest resource).1 = true ↔
      (s.force_generate = true ∨
       w.pathExists (s.output_dir.join dest) = false ∨
       w.mtime (s.output_dir.join dest) = Option.none ∨
       w.mtime (s.current_dir.join resource) = Option.none ∨
       ∃ o m, w.mtime (s.output_dir.join dest) = some o ∧
         w.mtime (s.current_dir.join resource) = some m ∧ o < m) := by
  by_cases hf : s.force_generate
  · simp [State.check_mtime, hf]
  · simp only [State.check_mtime, hf, Bool.false_eq_true, if_false, false_or]
    cases hex : w.pathExists (s.output_dir.join dest) <;>
      cases hmo : w.mtime (s.output_dir.join dest) <;>
        cases hms : w.mtime (s.current_dir.join resource) <;>
          simp [hex, hmo, hms]

theorem stripPrefixOf_not_absolute (p base r : FsPath)
    (h : FsPath.stripPrefixOf p base = some r) : r.absolute = false := by
  unfold FsPath.stripPrefixOf at h
  split at h
  · rcases hs : stripComps base.comps p.comps with _ | rest <;> rw [hs] at h <;>
      simp at h
    rw [← h]
  · simp at h

theorem finishStep_inl (w : World) (d : Nat) (path : FsPath)
    (action : BuildAction) (s s2 : State) (ev : FinishEvent)
    (h : finishStep w d path action s = Sum.inl (s2, ev)) :
    (s.output_dir.componentsCount = d → s2.output_dir = s.output_dir) ∧
    ((∃ q, ev = FinishEvent.wrote q) ∨
      ∃ q r, ev = FinishEvent.copied q r ∧ q ≠ r) := by
  unfold finishStep at h
  have hrelAll : ∀ r : FsPath,
      (if path.absolute = true then FsPath.stripPrefixOf path s.current_dir
        else some path) = some r → r.absolute = false := by
    intro r hr
    by_cases hp : path.absolute = true
    · rw [if_pos hp] at hr
      exact stripPrefixOf_not_absolute _ _ _ hr
    · rw [if_neg hp] at hr
      have hpr : path = r := by injection hr
      rw [← hpr]
      simpa using hp
  repeat' split at h
  all_goals (try (exfalso; simp_all; done))
  all_goals (try (simp only [] at h))
  repeat' split at h
  all_goals (try (exfalso; simp_all; done))
  all_goals (
    rw [Sum.inl.injEq, Prod.mk.injEq] at h
    obtain ⟨hs2, hev⟩ := h
    subst hs2
    subst hev
    refine ⟨fun hd => ?_, ?_⟩
    · dsimp only
      rw [← hd]
      refine join_rel_pop _ _ (hrelAll _ ?_)
      assumption
    first
    | exact Or.inl ⟨_, rfl⟩
    | exact Or.inr ⟨_, _, rfl, by assumption⟩)

theorem processedOf_append (a b : List FinishEvent) :
    processedOf (a ++ b) = processedOf a ++ processedOf b := by
  induction a with
  | nil => rfl
  | cons x xs ih => cases x <;> simp [processedOf, ih]

theorem finishStep_inl_not_processed (w : World) (d : Nat) (path : FsPath)
    (action : BuildAction) (s s2 : State) (ev : FinishEvent)
    (h : finishStep w d path action s = Sum.inl (s2, ev)) :
    processedOf [ev] = [] := by
  rcases (finishStep_inl w d path action s s2 ev h).2 with ⟨q, hq⟩ | ⟨q, r, hq, _⟩ <;>
    rw [hq] <;> rfl

theorem finishLoop_ok_output_dir (w : World) (d : Nat)
    (as_ : List (FsPath × BuildAction)) :
    ∀ (s : State) (acc : List FinishEvent) (s2 : State) (log : List FinishEvent),
      finishLoop w d as_ s acc = (Except.ok (), s2, log) →
      s.output_dir.componentsCount = d →
      s2.output_dir = s.output_dir := by
  induction as_ with
  | nil =>
    intro s acc s2 log h hd
    simp only [finishLoop, Prod.mk.injEq] at h
    rw [← h.2.1]
  | cons e tl ih =>
    intro s acc s2 log h hd
    obtain ⟨path, action⟩ := e
    simp only [finishLoop] at h
    cases hstep : finishStep w d path action s with
    | inl pr =>
      obtain ⟨s3, ev⟩ := pr
      rw [hstep] at h
      simp only [] at h
      have hout := (finishStep_inl w d path action s s3 ev hstep).1 hd
      have := ih s3 _ s2 log h (by rw [hout]; exact hd)
      rw [this, hout]
    | inr pr =>
      obtain ⟨e0, s3⟩ := pr
      rw [hstep] at h
      simp at h

theorem finishLoop_ok_processed (w : World) (d : Nat)
    (as_ : List (FsPath × BuildAction)) :
    ∀ (s : State) (acc : List FinishEvent) (s2 : State) (log : List FinishEvent),
      finishLoop w d as_ s acc = (Except.ok (), s2, log) →
      processedOf log = processedOf acc ++ as_.map (fun e => (e.1, e.2.src)) := by
  induction as_ with
  | nil =>
    intro s acc s2 log h
    simp only [finishLoop, Prod.mk.injEq] at h
    rw [← h.2.2]
    simp
  | cons e tl ih =>
    intro s acc s2 log h
    obtain ⟨path, action⟩ := e
    simp only [finishLoop] at h
    cases hstep : finishStep w d path action s with
    | inl pr =>
      obtain ⟨s3, ev⟩ := pr
      rw [hstep] at h
      simp only [] at h
      have hrec := ih s3 _ s2 log h
      rw [hrec, processedOf_append, processedOf_append,
        finishStep_inl_not_processed w d path action s s3 ev hstep]
      simp [processedOf]
    | inr pr =>
      obtain ⟨e0, s3⟩ := pr
      rw [hstep] at h
      simp at h

theorem finishLoop_copied_distinct (w : World) (d : Nat)
    (as_ : List (FsPath × BuildAction)) :
    ∀ (s : State) (acc : List FinishEvent),
      (∀ a b, FinishEvent.copied a b ∈ acc → a ≠ b) →
      ∀ a b, FinishEvent.copied a b ∈ (finishLoop w d as_ s acc).2.2 → a ≠ b := by
  induction as_ with
  | nil =>
    intro s acc hacc a b hmem
    exact hacc a b hmem
  | cons e tl ih =>
    intro s acc hacc a b hmem
    obtain ⟨path, action⟩ := e
    simp only [finishLoop] at hmem
    have hacc1 : ∀ a b, FinishEvent.copied a b ∈
        acc ++ [FinishEvent.processed path action.src] → a ≠ b := by
      intro a b hm
      rcases List.mem_append.mp hm with hm | hm
      · exact hacc a b hm
      · simp at hm
    cases hstep : finishStep w d path action s with
    | inl pr =>
      obtain ⟨s3, ev⟩ := pr
      rw [hstep] at hmem
      simp only [] at hmem
      refine ih s3 _ ?_ a b hmem
      intro a b hm
      rcases List.mem_append.mp hm with hm | hm
      · exact hacc1 a b hm
      · rcases (finishStep_inl w d path action s s3 ev hstep).2 with
          ⟨q, hq⟩ | ⟨q, r, hq, hqr⟩
        · rw [hq] at hm
          simp at hm
        · rw [hq] at hm
          simp at hm
          rw [hm.1, hm.2]
          exact hqr
    | inr pr =>
      obtain ⟨e0, s3⟩ := pr
      rw [hstep] at hmem
      simp only [] at hmem
      exact hacc1 a b hmem

theorem check_mtime_restores (w : World) (s : State) (dest resource : FsPath)
    (hrel : dest.absolute = false) :
    (State.check_mtime w s dest resource).2 = s := by
  unfold State.check_mtime
  split
  · rfl
  · simp only []
    rw [join_rel_pop s.output_dir dest hrel]

/-- C2 (amended): check_mtime restores the shared output-directory buffer on
    every exit path whenever the destination path is relative (the force early
    return happens before any push), and finish restores the buffer after each
    action it completes, so a successful commit returns with the buffer equal
    to its original value. The counterexample shows the two exits the original
    claim also covered but the code does not restore: a commit aborted by an
    I/O error after the push, and a probe of an absolute destination. -/
theorem output_dir_buffer_restoration :
    (∀ (w : World) (s : State) (dest resource : FsPath),
      dest.absolute = false →
      (State.check_mtime w s dest resource).2 = s) ∧
    (∀ (w : World) (s s2 : State) (log : List FinishEvent),
      State.finish w s = (Except.ok (), s2, log) →
      s2.output_dir = s.output_dir) := by
  constructor
  · intro w s dest resource hrel
    exact check_mtime_restores w s dest resource hrel
  · intro w s s2 log h
    unfold State.finish at h
    cases herr : s.err with
    | some e => rw [herr] at h; simp at h
    | none =>
      rw [herr] at h
      simp only [] at h
      by_cases hemp : s.build_actions.isEmpty
      · rw [if_pos hemp] at h
        simp only [Prod.mk.injEq] at h
        rw [← h.2.1]
      · rw [if_neg hemp] at h
        have hout := finishLoop_ok_output_dir w _ _ _ [] s2 log h rfl
        exact hout

/-- C2 counterexample: a probe of an absolute destination replaces the buffer
    and the cleanup loop does not restore it, and an error from directory
    creation during commit returns early with the pushed components still on
    the buffer. -/
theorem output_dir_buffer_leak_example :
    (State.check_mtime wStale baseState ⟨true, ["x"]⟩ ⟨false, ["r"]⟩).2.output_dir ≠
      baseState.output_dir ∧
    (State.finish wDirFail sCopy).1 = Except.error "create_dir_all failed" ∧
    (State.finish wDirFail sCopy).2.1.output_dir ≠ sCopy.output_dir := by
  exact ⟨by decide, rfl, by decide⟩

/-- C2 witness: a relative probe restores the state exactly, and a successful
    commit of the copy fixture returns with the original buffer. -/
theorem output_dir_buffer_restoration_witness :
    (State.check_mtime wStale baseState ⟨false, ["a"]⟩ ⟨false, ["r"]⟩).2 = baseState ∧
    (State.finish wStale sCopy).2.1.output_dir = sCopy.output_dir := by
  constructor
  · exact output_dir_buffer_restoration.1 wStale baseState _ _ rfl
  · exact output_dir_buffer_restoration.2 wStale sCopy _ _ rfl

/-- C5: every verbatim copy the commit phase performs has distinct source and
    destination arguments: the assertion before the byte copy turns an equal
    pair into a hard failure, so a copied event in the commit log always
    carries two different paths and no silent self-copy can happen. -/
theorem finish_copy_src_dest_distinct :
    ∀ (w : World) (s : State) (a b : FsPath),
      FinishEvent.copied a b ∈ (State.finish w s).2.2 → a ≠ b := by
  intro w s a b hmem
  unfold State.finish at hmem
  cases herr : s.err with
  | some e => rw [herr] at hmem; simp at hmem
  | none =>
    rw [herr] at hmem
    simp only [] at hmem
    by_cases hemp : s.build_actions.isEmpty
    · rw [if_pos hemp] at hmem
      simp at hmem
    · rw [if_neg hemp] at hmem
      refine finishLoop_copied_distinct w _ _ _ [] ?_ a b hmem
      intro a b hm
      simp at hm

/-- C5 witness: the commit of the copy fixture emits a copied event and the
    theorem yields the distinctness of its two paths. -/
theorem finish_copy_src_dest_distinct_witness :
    FinishEvent.copied ⟨false, ["srcfile"]⟩ ⟨true, ["home", "p", "_site", "a"]⟩ ∈
      (State.finish wStale sCopy).2.2 ∧
    (⟨false, ["srcfile"]⟩ : FsPath) ≠ ⟨true, ["home", "p", "_site", "a"]⟩ :=
  ⟨by decide, finish_copy_src_dest_distinct wStale sCopy _ _ (by decide)⟩

theorem mem_insertByKey {α : Type} (key : α → Nat) (x a : α) (l : List α) :
    a ∈ insertByKey key x l ↔ a = x ∨ a ∈ l := by
  induction l with
  | nil => simp [insertByKey]
  | cons y ys ih =>
    rw [insertByKey]
    by_cases hk : key y < key x
    · rw [if_pos hk]
      simp only [List.mem_cons, ih]
      tauto
    · rw [if_neg hk]
      simp only [List.mem_cons]

theorem pairwise_insertByKey {α : Type} (key : α → Nat) (x : α) (l : List α)
    (h : List.Pairwise (fun a b => key a ≤ key b) l) :
    List.Pairwise (fun a b => key a ≤ key b) (insertByKey key x l) := by
  induction l with
  | nil => simp [insertByKey]
  | cons y ys ih =>
    rw [List.pairwise_cons] at h
    rw [insertByKey]
    by_cases hk : key y < key x
    · rw [if_pos hk]
      rw [List.pairwise_cons]
      constructor
      · intro b hb
        rcases (mem_insertByKey key x b ys).mp hb with hb | hb
        · rw [hb]
          exact Nat.le_of_lt hk
        · exact h.1 b hb
      · exact ih h.2
    · rw [if_neg hk]
      push_neg at hk
      rw [List.pairwise_cons]
      constructor
      · intro b hb
        rcases List.mem_cons.mp hb with hb | hb
        · rw [hb]
          exact hk
        · exact Nat.le_trans hk (h.1 b hb)
      · rw [List.pairwise_cons]
        exact ⟨h.1, h.2⟩

theorem pairwise_sortByKey {α : Type} (key : α → Nat) (l : List α) :
    List.Pairwise (fun a b => key a ≤ key b) (sortByKey key l) := by
  induction l with
  | nil => simp [sortByKey]
  | cons x xs ih =>
    rw [sortByKey]
    exact pairwise_insertByKey key x _ ih

theorem filter_insertByKey {α : Type} (key : α → Nat) (x : α) (t : Nat)
    (l : List α) :
    (insertByKey key x l).filter (fun e => decide (key e = t)) =
      if key x = t then x :: l.filter (fun e => decide (key e = t))
      else l.filter (fun e => decide (key e = t)) := by
  induction l with
  | nil =>
    rw [insertByKey]
    by_cases hx : key x = t <;> simp [hx, List.filter]
  | cons y ys ih =>
    rw [insertByKey]
    by_cases hk : key y < key x
    · rw [if_pos hk]
      by_cases hy : key y = t
      · have hx : ¬ key x = t := by omega
        simp [List.filter_cons, hy, hx, ih]
      · by_cases hx : key x = t <;> simp [List.filter_cons, hy, hx, ih]
    · rw [if_neg hk]
      by_cases hx : key x = t <;> simp [List.filter_cons, hx]

theorem filter_sortByKey {α : Type} (key : α → Nat) (t : Nat) (l : List α) :
    (sortByKey key l).filter (fun e => decide (key e = t)) =
      l.filter (fun e => decide (key e = t)) := by
  induction l with
  | nil => rfl
  | cons x xs ih =>
    rw [sortByKey, filter_insertByKey]
    by_cases hx : key x = t <;> simp [hx, List.filter_cons, ih]

/-- C4: when finish commits, the log processes the build actions exactly in
    the stably sorted order of the queue: ascending artifact updated_date,
    with equal dates kept in the original insertion order of the queue, as
    the filter identity states. -/
theorem finish_commit_order_sorted_stable :
    ∀ (w : World) (s : State) (s2 : State) (log : List FinishEvent),
      State.finish w s = (Except.ok (), s2, log) →
      processedOf log = (State.sortedActions s).map (fun e => (e.1, e.2.src)) ∧
      List.Pairwise (fun e1 e2 => actionKey s e1 ≤ actionKey s e2)
        (State.sortedActions s) ∧
      ∀ t, (State.sortedActions s).filter (fun e => decide (actionKey s e = t)) =
        s.build_actions.filter (fun e => decide (actionKey s e = t)) := by
  intro w s s2 log h
  refine ⟨?_, pairwise_sortByKey _ _, fun t => filter_sortByKey _ t _⟩
  unfold State.finish at h
  cases herr : s.err with
  | some e => rw [herr] at h; simp at h
  | none =>
    rw [herr] at h
    simp only [] at h
    by_cases hemp : s.build_actions.isEmpty
    · rw [if_pos hemp] at h
      simp only [Prod.mk.injEq] at h
      rw [← h.2.2]
      have hnil : s.build_actions = [] := List.isEmpty_iff.mp hemp
      rw [State.sortedActions, hnil]
      rfl
    · rw [if_neg hemp] at h
      have hp := finishLoop_ok_processed w _ _ _ [] s2 log h
      rw [hp]
      simp [processedOf]

/-- C4 witness: the three-action fixture with updated dates 5, 3, 3 commits in
    the stable ascending order. -/
theorem finish_commit_order_witness :
    processedOf (State.finish wStale sOrder).2.2 =
      (State.sortedActions sOrder).map (fun e => (e.1, e.2.src)) ∧
    List.Pairwise (fun e1 e2 => actionKey sOrder e1 ≤ actionKey sOrder e2)
      (State.sortedActions sOrder) ∧
    ∀ t, (State.sortedActions sOrder).filter
        (fun e => decide (actionKey sOrder e = t)) =
      sOrder.build_actions.filter (fun e => decide (actionKey sOrder e = t)) :=
  finish_commit_order_sorted_stable wStale sOrder _ _ rfl

theorem indexLookup_indexInsert_self {κ α : Type} [DecidableEq κ] (k : κ)
    (v : α) (l : List (κ × α)) :
    indexLookup k (indexInsert k v l) = some v := by
  induction l with
  | nil => simp [indexInsert, indexLookup]
  | cons e rest ih =>
    obtain ⟨k0, v0⟩ := e
    rw [indexInsert]
    by_cases hk : k0 = k
    · rw [if_pos hk, indexLookup, if_pos hk]
    · rw [if_neg hk, indexLookup, if_neg hk]
      exact ih

theorem countKey_cons {κ α : Type} [DecidableEq κ] (k k0 : κ) (v : α)
    (rest : List (κ × α)) :
    countKey k ((k0, v) :: rest) = countKey k rest + (if k0 = k then 1 else 0) := by
  by_cases h : k0 = k <;> simp [countKey, List.filter_cons, h]

theorem countKey_indexInsert_ne {κ α : Type} [DecidableEq κ] (k k1 : κ) (v : α)
    (l : List (κ × α)) (h : k1 ≠ k) :
    countKey k (indexInsert k1 v l) = countKey k l := by
  induction l with
  | nil => simp [indexInsert, countKey, List.filter, h]
  | cons e rest ih =>
    obtain ⟨k0, v0⟩ := e
    rw [indexInsert]
    by_cases hk : k0 = k1
    · rw [if_pos hk, countKey_cons, countKey_cons]
    · rw [if_neg hk, countKey_cons, countKey_cons, ih]

theorem countKey_indexInsert_self {κ α : Type} [DecidableEq κ] (k : κ) (v : α)
    (l : List (κ × α)) :
    countKey k (indexInsert k v l) =
      if countKey k l = 0 then 1 else countKey k l := by
  induction l with
  | nil => simp [indexInsert, countKey, List.filter]
  | cons e rest ih =>
    obtain ⟨k0, v0⟩ := e
    rw [indexInsert]
    by_cases hk : k0 = k
    · rw [if_pos hk, countKey_cons, countKey_cons, if_pos hk]
      have : countKey k rest + 1 ≠ 0 := by omega
      rw [if_neg this]
    · rw [if_neg hk, countKey_cons, countKey_cons, if_neg hk, ih]
      by_cases h0 : countKey k rest = 0 <;> simp [h0]

theorem countKey_indexInsert_le {κ α : Type} [DecidableEq κ] (k k1 : κ) (v : α)
    (l : List (κ × α)) (h : countKey k l ≤ 1) :
    countKey k (indexInsert k1 v l) ≤ 1 := by
  by_cases hk : k1 = k
  · subst hk
    rw [countKey_indexInsert_self]
    split <;> omega
  · rw [countKey_indexInsert_ne _ _ _ _ hk]
    exact h

mutual
theorem renderer_check_mtime_build_actions (w : World) :
    ∀ (r : Renderer) (s : State) (dp : FsPath),
      (Renderer.check_mtime w r s dp).2.build_actions = s.build_actions
  | Renderer.loadAndApplyTemplate p, s, dp => by
    rw [Renderer.check_mtime]
    exact check_mtime_build_actions w s dp _
  | Renderer.pipeline list, s, dp => by
    rw [Renderer.check_mtime]
    exact checkMtimeAny_build_actions w list s dp
  | Renderer.custom, s, dp => by
    rw [Renderer.check_mtime]
  | Renderer.none, s, dp => by
    rw [Renderer.check_mtime]

theorem checkMtimeAny_build_actions (w : World) :
    ∀ (list : List Renderer) (s : State) (dp : FsPath),
      (checkMtimeAny w list s dp).2.build_actions = s.build_actions
  | [], s, dp => by
    rw [checkMtimeAny]
  | r :: rest, s, dp => by
    rw [checkMtimeAny]
    by_cases hb : (Renderer.check_mtime w r s dp).1 = true
    · rw [if_pos hb]
      exact renderer_check_mtime_build_actions w r s dp
    · rw [if_neg hb]
      rw [checkMtimeAny_build_actions w rest _ dp]
      exact renderer_check_mtime_build_actions w r s dp
end

theorem stalePair_build_actions (w : World) (s : State) (dest resource : FsPath)
    (renderer : Renderer) :
    (stalePair w s dest resource renderer).2.build_actions = s.build_actions := by
  unfold stalePair
  simp only []
  by_cases hb : (State.check_mtime w s dest resource).1 = true
  · rw [if_pos hb]
    exact check_mtime_build_actions w s dest resource
  · rw [if_neg hb]
    rw [renderer_check_mtime_build_actions w renderer _ dest]
    exact check_mtime_build_actions w s dest resource

/-- C3: registering through copy_page or add_page inserts into the queue with
    IndexMap semantics: when the staleness test holds, the destination key
    afterwards holds exactly the newly registered action (a previous action
    for the same destination is replaced, so the most recent registration
    wins), and a queue with at most one action per destination keeps that
    bound through any registration. -/
theorem build_queue_last_registration_wins :
    (∀ (w : World) (s : State) (r d : FsPath) (u2 : Uuid) (s2 : State),
      State.copy_page w s r d = Except.ok (u2, s2) →
      ((State.check_mtime w s d r).1 = true →
        indexLookup d s2.build_actions =
          some ⟨uuid_from_path r, Renderer.none⟩) ∧
      (∀ k, countKey k s.build_actions ≤ 1 → countKey k s2.build_actions ≤ 1)) ∧
    (∀ (w : World) (s : State) (dest r : FsPath)
      (compiler : State → FsPath → Except String (Metadata × State))
      (renderer : Renderer) (u2 : Uuid) (s2 : State),
      State.add_page w s dest r compiler renderer = Except.ok (u2, s2) →
      ∀ (md : Metadata) (sc : State),
        compiler s (State.normalizeResource s r) = Except.ok (md, sc) →
        ((stalePair w sc dest (State.normalizeResource s r) renderer).1 = true →
          indexLookup dest s2.build_actions = some ⟨u2, renderer⟩) ∧
        (∀ k, countKey k sc.build_actions ≤ 1 →
          countKey k s2.build_actions ≤ 1)) := by
  constructor
  · intro w s r d u2 s2 h
    unfold State.copy_page at h
    cases hg : w.gitDate r with
    | none =>
      rw [hg] at h
      simp at h
    | some g =>
      rw [hg] at h
      simp only [] at h
      constructor
      · intro hst
        rw [if_pos hst] at h
        simp only [Except.ok.injEq, Prod.mk.injEq] at h
        obtain ⟨hu, hs⟩ := h
        rw [← hs]
        exact indexLookup_indexInsert_self d _ _
      · intro k hk
        by_cases hst : (State.check_mtime w s d r).1 = true
        · rw [if_pos hst] at h
          simp only [Except.ok.injEq, Prod.mk.injEq] at h
          obtain ⟨hu, hs⟩ := h
          rw [← hs]
          show countKey k (indexInsert d ⟨uuid_from_path r, Renderer.none⟩
            (State.check_mtime w s d r).2.build_actions) ≤ 1
          rw [check_mtime_build_actions] at *
          exact countKey_indexInsert_le k d _ _ hk
        · rw [if_neg hst] at h
          simp only [Except.ok.injEq, Prod.mk.injEq] at h
          obtain ⟨hu, hs⟩ := h
          rw [← hs]
          show countKey k (State.check_mtime w s d r).2.build_actions ≤ 1
          rw [check_mtime_build_actions]
          exact hk
  · intro w s dest r compiler renderer u2 s2 h md sc hc
    unfold State.add_page at h
    simp only [] at h
    rw [hc] at h
    simp only [] at h
    cases hg : w.gitDate (State.normalizeResource s r) with
    | none =>
      rw [hg] at h
      simp at h
    | some g =>
      rw [hg] at h
      simp only [] at h
      constructor
      · intro hst
        rw [if_pos hst] at h
        simp only [Except.ok.injEq, Prod.mk.injEq] at h
        obtain ⟨hu, hs⟩ := h
        rw [← hs, ← hu]
        exact indexLookup_indexInsert_self dest _ _
      · intro k hk
        by_cases hst :
            (stalePair w sc dest (State.normalizeResource s r) renderer).1 = true
        · rw [if_pos hst] at h
          simp only [Except.ok.injEq, Prod.mk.injEq] at h
          obtain ⟨hu, hs⟩ := h
          rw [← hs]
          show countKey k (indexInsert dest
            ⟨uuid_from_path (State.normalizeResource s r), renderer⟩
            (stalePair w sc dest (State.normalizeResource s r) renderer).2.build_actions) ≤ 1
          rw [stalePair_build_actions]
          exact countKey_indexInsert_le k dest _ _ hk
        · rw [if_neg hst] at h
          simp only [Except.ok.injEq, Prod.mk.injEq] at h
          obtain ⟨hu, hs⟩ := h
          rw [← hs]
          show countKey k
            (stalePair w sc dest (State.normalizeResource s r) renderer).2.build_actions ≤ 1
          rw [stalePair_build_actions]
          exact hk

/-- C3 witness: registering a copy for a destination already present replaces
    the old action and the queue keeps one entry for that destination. -/
theorem build_queue_last_registration_wins_witness :
    indexLookup ⟨false, ["a"]⟩
      (okResState (State.copy_page wStale sReplace ⟨false, ["r"]⟩ ⟨false, ["a"]⟩)
        baseState).build_actions =
      some ⟨uuid_from_path ⟨false, ["r"]⟩, Renderer.none⟩ ∧
    countKey ⟨false, ["a"]⟩
      (okResState (State.copy_page wStale sReplace ⟨false, ["r"]⟩ ⟨false, ["a"]⟩)
        baseState).build_actions ≤ 1 := by
  constructor
  · exact (build_queue_last_registration_wins.1 wStale sReplace
      ⟨false, ["r"]⟩ ⟨false, ["a"]⟩ _ _ rfl).1 rfl
  · exact (build_queue_last_registration_wins.1 wStale sReplace
      ⟨false, ["r"]⟩ ⟨false, ["a"]⟩ _ _ rfl).2 _ (by decide)

/-- C6: add_page invokes the compiler before any staleness decision, so a
    compiler error propagates unconditionally; and a successful registration
    whose staleness disjunction is false stores the compiler metadata in the
    artifact registered under the returned identifier while adding nothing to
    the build queue beyond what the compiler itself left there. -/
theorem add_page_cached_still_compiles :
    (∀ (w : World) (s : State) (dest r : FsPath)
      (compiler : State → FsPath → Except String (Metadata × State))
      (renderer : Renderer) (e : String),
      compiler s (State.normalizeResource s r) = Except.error e →
      State.add_page w s dest r compiler renderer = Except.error e) ∧
    (∀ (w : World) (s : State) (dest r : FsPath)
      (compiler : State → FsPath → Except String (Metadata × State))
      (renderer : Renderer) (u2 : Uuid) (s2 : State) (md : Metadata)
      (sc : State) (g : Nat),
      State.add_page w s dest r compiler renderer = Except.ok (u2, s2) →
      compiler s (State.normalizeResource s r) = Except.ok (md, sc) →
      w.gitDate (State.normalizeResource s r) = some g →
      (stalePair w sc dest (State.normalizeResource s r) renderer).1 = false →
      s2.build_actions = sc.build_actions ∧
      indexLookup u2 s2.artifacts = some
        ⟨uuid_from_path (State.normalizeResource s r), dest,
         State.normalizeResource s r, md, "",
         w.mtime (sc.current_dir.join (State.normalizeResource s r)), g⟩) := by
  constructor
  · intro w s dest r compiler renderer e hc
    unfold State.add_page
    simp only []
    rw [hc]
  · intro w s dest r compiler renderer u2 s2 md sc g h hc hg hst
    unfold State.add_page at h
    simp only [] at h
    rw [hc] at h
    simp only [] at h
    rw [hg] at h
    simp only [] at h
    rw [if_neg (by rw [hst]; simp)] at h
    simp only [Except.ok.injEq, Prod.mk.injEq] at h
    obtain ⟨hu, hs⟩ := h
    constructor
    · rw [← hs]
      show (stalePair w sc dest (State.normalizeResource s r) renderer).2.build_actions =
        sc.build_actions
      exact stalePair_build_actions w sc dest _ renderer
    · rw [← hs, ← hu]
      exact indexLookup_indexInsert_self _ _ _

/-- C6 witness: a non-stale registration through the fresh-world fixture still
    stores the compiler metadata and leaves the queue untouched. -/
theorem add_page_cached_still_compiles_witness :
    (okResState (State.add_page wFresh baseState ⟨false, ["d"]⟩ ⟨false, ["r"]⟩
        compFix (Renderer.pipeline [])) baseState).build_actions =
      baseState.build_actions ∧
    indexLookup
      (okResUuid (State.add_page wFresh baseState ⟨false, ["d"]⟩ ⟨false, ["r"]⟩
        compFix (Renderer.pipeline [])) uuidA)
      (okResState (State.add_page wFresh baseState ⟨false, ["d"]⟩ ⟨false, ["r"]⟩
        compFix (Renderer.pipeline [])) baseState).artifacts =
      some ⟨uuid_from_path (State.normalizeResource baseState ⟨false, ["r"]⟩),
        ⟨false, ["d"]⟩, State.normalizeResource baseState ⟨false, ["r"]⟩,
        [("body", "hello")], "",
        wFresh.mtime (baseState.current_dir.join
          (State.normalizeResource baseState ⟨false, ["r"]⟩)), 7⟩ :=
  add_page_cached_still_compiles.2 wFresh baseState ⟨false, ["d"]⟩ ⟨false, ["r"]⟩
    compFix (Renderer.pipeline []) _ _ [("body", "hello")] baseState 7
    rfl rfl rfl rfl

theorem stalePair_custom (w : World) (s : State) (dest resource : FsPath) :
    (stalePair w s dest resource Renderer.custom).1 = true := by
  unfold stalePair
  simp only []
  by_cases hb : (State.check_mtime w s dest resource).1 = true
  · rw [if_pos hb]
  · rw [if_neg hb]
    rw [Renderer.check_mtime]

theorem stalePair_none (w : World) (s : State) (dest resource : FsPath) :
    (stalePair w s dest resource Renderer.none).1 = true := by
  unfold stalePair
  simp only []
  by_cases hb : (State.check_mtime w s dest resource).1 = true
  · rw [if_pos hb]
  · rw [if_neg hb]
    rw [Renderer.check_mtime]

/-- C10: Renderer check_mtime answers true unconditionally for the Custom and
    None variants, and consequently add_page with such a renderer always takes
    the stale branch: a successful registration always leaves a build action
    for the destination holding the returned identifier and that renderer,
    whatever the modification times say. -/
theorem custom_none_renderer_always_stale :
    (∀ (w : World) (s : State) (dp : FsPath),
      Renderer.check_mtime w Renderer.custom s dp = (true, s)) ∧
    (∀ (w : World) (s : State) (dp : FsPath),
      Renderer.check_mtime w Renderer.none s dp = (true, s)) ∧
    (∀ (w : World) (s : State) (dest r : FsPath)
      (compiler : State → FsPath → Except String (Metadata × State))
      (u2 : Uuid) (s2 : State),
      State.add_page w s dest r compiler Renderer.custom = Except.ok (u2, s2) →
      indexLookup dest s2.build_actions = some ⟨u2, Renderer.custom⟩) ∧
    (∀ (w : World) (s : State) (dest r : FsPath)
      (compiler : State → FsPath → Except String (Metadata × State))
      (u2 : Uuid) (s2 : State),
      State.add_page w s dest r compiler Renderer.none = Except.ok (u2, s2) →
      indexLookup dest s2.build_actions = some ⟨u2, Renderer.none⟩) := by
  refine ⟨fun w s dp => by rw [Renderer.check_mtime],
    fun w s dp => by rw [Renderer.check_mtime], ?_, ?_⟩
  · intro w s dest r compiler u2 s2 h
    unfold State.add_page at h
    simp only [] at h
    cases hcomp : compiler s (State.normalizeResource s r) with
    | error e =>
      rw [hcomp] at h
      simp at h
    | ok pr =>
      obtain ⟨md, sc⟩ := pr
      rw [hcomp] at h
      simp only [] at h
      cases hg : w.gitDate (State.normalizeResource s r) with
      | none =>
        rw [hg] at h
        simp at h
      | some g =>
        rw [hg] at h
        simp only [] at h
        rw [if_pos (stalePair_custom w sc dest _)] at h
        simp only [Except.ok.injEq, Prod.mk.injEq] at h
        obtain ⟨hu, hs⟩ := h
        rw [← hs, ← hu]
        exact indexLookup_indexInsert_self dest _ _
  · intro w s dest r compiler u2 s2 h
    unfold State.add_page at h
    simp only [] at h
    cases hcomp : compiler s (State.normalizeResource s r) with
    | error e =>
      rw [hcomp] at h
      simp at h
    | ok pr =>
      obtain ⟨md, sc⟩ := pr
      rw [hcomp] at h
      simp only [] at h
      cases hg : w.gitDate (State.normalizeResource s r) with
      | none =>
        rw [hg] at h
        simp at h
      | some g =>
        rw [hg] at h
        simp only [] at h
        rw [if_pos (stalePair_none w sc dest _)] at h
        simp only [Except.ok.injEq, Prod.mk.injEq] at h
        obtain ⟨hu, hs⟩ := h
        rw [← hs, ← hu]
        exact indexLookup_indexInsert_self dest _ _

/-- C10 witness: in the fresh-world fixture where nothing is stale by mtimes,
    a registration with the None renderer nevertheless enqueues an action. -/
theorem custom_none_renderer_always_stale_witness :
    Renderer.check_mtime wFresh Renderer.custom baseState ⟨false, ["d"]⟩ =
      (true, baseState) ∧
    indexLookup ⟨false, ["d"]⟩
      (okResState (State.add_page wFresh baseState ⟨false, ["d"]⟩ ⟨false, ["r"]⟩
        compFix Renderer.none) baseState).build_actions =
      some ⟨okResUuid (State.add_page wFresh baseState ⟨false, ["d"]⟩
        ⟨false, ["r"]⟩ compFix Renderer.none) uuidA, Renderer.none⟩ := by
  constructor
  · exact custom_none_renderer_always_stale.1 wFresh baseState _
  · exact custom_none_renderer_always_stale.2.2.2 wFresh baseState
      ⟨false, ["d"]⟩ ⟨false, ["r"]⟩ compFix _ _ rfl

theorem indexLookup_snapshotPush_self {α : Type} (k : String) (u : α)
    (l : List (String × List α)) :
    indexLookup k (snapshotPush k u l) =
      some ((indexLookup k l).getD [] ++ [u]) := by
  induction l with
  | nil => simp [snapshotPush, indexLookup]
  | cons e rest ih =>
    obtain ⟨k0, v0⟩ := e
    rw [snapshotPush]
    by_cases hk : k0 = k
    · rw [if_pos hk, indexLookup, if_pos hk, indexLookup, if_pos hk]
      simp
    · rw [if_neg hk, indexLookup, if_neg hk, indexLookup, if_neg hk]
      exact ih

theorem indexLookup_append_right {κ α : Type} [DecidableEq κ] (k : κ)
    (l t : List (κ × α)) (h : indexLookup k l = Option.none) :
    indexLookup k (l ++ t) = indexLookup k t := by
  induction l with
  | nil => simp
  | cons e rest ih =>
    obtain ⟨k0, v0⟩ := e
    rw [indexLookup] at h
    by_cases hk : k0 = k
    · rw [if_pos hk] at h
      simp at h
    · rw [if_neg hk] at h
      rw [List.cons_append, indexLookup, if_neg hk]
      exact ih h

theorem addAll_read : ∀ (us : List Uuid) (s : State) (key : String),
    (indexLookup key s.snapshots).isSome = true →
    readSnapshotRss (addAllToSnapshot s key us) key =
      Except.ok ((indexLookup key s.snapshots).getD [] ++ us) := by
  intro us
  induction us with
  | nil =>
    intro s key h
    rcases hl : indexLookup key s.snapshots with _ | v
    · rw [hl] at h
      simp at h
    · simp [addAllToSnapshot, readSnapshotRss, hl]
  | cons u us ih =>
    intro s key h
    rw [show addAllToSnapshot s key (u :: us) =
      addAllToSnapshot (s.add_to_snapshot key u) key us from rfl]
    rw [ih (s.add_to_snapshot key u) key (by
      rw [show (s.add_to_snapshot key u).snapshots =
        snapshotPush key u s.snapshots from rfl]
      rw [indexLookup_snapshotPush_self]
      rfl)]
    rw [show (s.add_to_snapshot key u).snapshots =
      snapshotPush key u s.snapshots from rfl]
    rw [indexLookup_snapshotPush_self]
    simp

/-- C7 (amended): reading a snapshot key absent from the snapshot index fails
    with the descriptive no-such-snapshot message; a key initialized through
    add_snapshot but never appended to reads back successfully as the empty
    sequence (the counterexample to the original claim); and appending
    identifiers then reading returns the previously stored sequence followed
    by the appended identifiers in insertion order, duplicates preserved. -/
theorem snapshot_read_semantics :
    (∀ (s : State) (key : String),
      indexLookup key s.snapshots = Option.none →
      readSnapshotRss s key = Except.error (noSnapshotMsg key)) ∧
    (∀ (s : State) (key : String),
      readSnapshotRss (State.add_snapshot s key) key =
        Except.ok ((indexLookup key s.snapshots).getD [])) ∧
    (∀ (s : State) (key : String) (u : Uuid) (us : List Uuid),
      readSnapshotRss (addAllToSnapshot s key (u :: us)) key =
        Except.ok ((indexLookup key s.snapshots).getD [] ++ (u :: us))) := by
  refine ⟨?_, ?_, ?_⟩
  · intro s key h
    rw [readSnapshotRss, h]
  · intro s key
    rcases hl : indexLookup key s.snapshots with _ | v
    · have hsnap : (State.add_snapshot s key).snapshots =
          s.snapshots ++ [(key, [])] := by
        unfold State.add_snapshot
        simp [hl]
      simp [readSnapshotRss, hsnap, indexLookup_append_right key _ _ hl,
        indexLookup, hl]
    · have hsnap : (State.add_snapshot s key).snapshots = s.snapshots := by
        unfold State.add_snapshot
        simp [hl]
      simp [readSnapshotRss, hsnap, hl]
  · intro s key u us
    rw [show addAllToSnapshot s key (u :: us) =
      addAllToSnapshot (s.add_to_snapshot key u) key us from rfl]
    rw [addAll_read us (s.add_to_snapshot key u) key (by
      rw [show (s.add_to_snapshot key u).snapshots =
        snapshotPush key u s.snapshots from rfl]
      rw [indexLookup_snapshotPush_self]
      rfl)]
    rw [show (s.add_to_snapshot key u).snapshots =
      snapshotPush key u s.snapshots from rfl]
    rw [indexLookup_snapshotPush_self]
    simp

/-- C7 counterexample: a snapshot key initialized through add_snapshot and
    never appended to is read back successfully as an empty sequence rather
    than failing with the no-such-snapshot error. -/
theorem snapshot_read_after_add_snapshot_succeeds :
    readSnapshotRss (State.add_snapshot baseState "posts") "posts" =
      Except.ok [] := rfl

/-- C7 witness: an absent key fails with the descriptive message and two
    appends of the same identifier read back in order with the duplicate
    preserved. -/
theorem snapshot_read_semantics_witness :
    readSnapshotRss baseState "nope" = Except.error (noSnapshotMsg "nope") ∧
    readSnapshotRss (addAllToSnapshot baseState "posts" [uuidA, uuidA])
        "posts" =
      Except.ok ((indexLookup "posts" baseState.snapshots).getD [] ++
        [uuidA, uuidA]) := by
  constructor
  · exact snapshot_read_semantics.1 baseState "nope" rfl
  · exact snapshot_read_semantics.2.2 baseState "posts" uuidA [uuidA]

/-- C8 (amended): when the version-control date query fails or its output
    cannot be parsed, the registration does not succeed: copy_page panics
    through unwrap (modelled as the error outcome) and add_page propagates
    the error; no sentinel default value is substituted. -/
theorem git_date_failure_propagates :
    (∀ (w : World) (s : State) (r d : FsPath),
      w.gitDate r = Option.none →
      exceptOk (State.copy_page w s r d) = false) ∧
    (∀ (w : World) (s : State) (dest r : FsPath)
      (compiler : State → FsPath → Except String (Metadata × State))
      (renderer : Renderer),
      w.gitDate (State.normalizeResource s r) = Option.none →
      exceptOk (State.add_page w s dest r compiler renderer) = false) := by
  constructor
  · intro w s r d hg
    unfold State.copy_page
    simp only []
    rw [hg]
    rfl
  · intro w s dest r compiler renderer hg
    unfold State.add_page
    simp only []
    cases hcomp : compiler s (State.normalizeResource s r) with
    | error e => rfl
    | ok pr =>
      obtain ⟨md, sc⟩ := pr
      simp only []
      rw [hg]
      rfl

/-- C8 counterexample: with a git date query that never parses, neither
    registration succeeds, so no sentinel default is ever applied. -/
theorem git_date_failure_not_defaulted :
    exceptOk (State.copy_page wGitNone baseState ⟨false, ["r"]⟩
      ⟨false, ["d"]⟩) = false ∧
    exceptOk (State.add_page wGitNone baseState ⟨false, ["d2"]⟩
      ⟨false, ["r2"]⟩ compFix Renderer.none) = false :=
  ⟨rfl, rfl⟩

/-- C8 witness: the amended failure propagation at concrete inputs. -/
theorem git_date_failure_propagates_witness :
    exceptOk (State.copy_page wGitNone baseState ⟨false, ["w"]⟩
      ⟨false, ["d"]⟩) = false ∧
    exceptOk (State.add_page wGitNone baseState ⟨false, ["d"]⟩
      ⟨false, ["w"]⟩ compFix Renderer.custom) = false :=
  ⟨git_date_failure_propagates.1 wGitNone baseState _ _ rfl,
    git_date_failure_propagates.2 wGitNone baseState _ _ compFix
      Renderer.custom rfl⟩

theorem stripComps_append (l m : List String) :
    stripComps l (l ++ m) = some m := by
  induction l with
  | nil => rfl
  | cons a rest ih =>
    rw [List.cons_append, stripComps, if_pos rfl]
    exact ih

theorem normalize_prefixed (s : State) (rrel : FsPath)
    (hout : s.output_dir.absolute = true) (hr : rrel.absolute = false) :
    State.normalizeResource s (s.output_dir.parent.join rrel) =
      ⟨false, rrel.comps⟩ := by
  have hj : s.output_dir.parent.join rrel =
      ⟨s.output_dir.absolute, s.output_dir.parent.comps ++ rrel.comps⟩ := by
    simp [FsPath.join, hr, FsPath.parent]
  unfold State.normalizeResource
  rw [hj]
  unfold FsPath.stripPrefixOf
  rw [show FsPath.absolute ⟨s.output_dir.absolute,
    s.output_dir.parent.comps ++ rrel.comps⟩ = s.output_dir.absolute from rfl]
  rw [show (s.output_dir.parent).absolute = s.output_dir.absolute from rfl]
  rw [if_pos rfl]
  rw [show FsPath.comps ⟨s.output_dir.absolute,
    s.output_dir.parent.comps ++ rrel.comps⟩ =
    s.output_dir.parent.comps ++ rrel.comps from rfl]
  rw [stripComps_append]
  rfl

theorem normalize_relative (s : State) (r : FsPath)
    (hout : s.output_dir.absolute = true) (hr : r.absolute = false) :
    State.normalizeResource s r = r := by
  unfold State.normalizeResource
  unfold FsPath.stripPrefixOf
  rw [show (s.output_dir.parent).absolute = s.output_dir.absolute from rfl]
  rw [hout, hr]
  rw [if_neg (by simp)]

theorem copy_page_ok_uuid (w : World) (s : State) (r d : FsPath) (u2 : Uuid)
    (s2 : State) (h : State.copy_page w s r d = Except.ok (u2, s2)) :
    u2 = uuid_from_path r := by
  unfold State.copy_page at h
  cases hg : w.gitDate r with
  | none =>
    rw [hg] at h
    simp at h
  | some g =>
    rw [hg] at h
    simp only [] at h
    by_cases hst : (State.check_mtime w s d r).1 = true
    · rw [if_pos hst] at h
      simp only [Except.ok.injEq, Prod.mk.injEq] at h
      exact h.1.symm
    · rw [if_neg hst] at h
      simp only [Except.ok.injEq, Prod.mk.injEq] at h
      exact h.1.symm

theorem add_page_ok_uuid (w : World) (s : State) (dest r : FsPath)
    (compiler : State → FsPath → Except String (Metadata × State))
    (renderer : Renderer) (u2 : Uuid) (s2 : State)
    (h : State.add_page w s dest r compiler renderer = Except.ok (u2, s2)) :
    u2 = uuid_from_path (State.normalizeResource s r) := by
  unfold State.add_page at h
  simp only [] at h
  cases hcomp : compiler s (State.normalizeResource s r) with
  | error e =>
    rw [hcomp] at h
    simp at h
  | ok pr =>
    obtain ⟨md, sc⟩ := pr
    rw [hcomp] at h
    simp only [] at h
    cases hg : w.gitDate (State.normalizeResource s r) with
    | none =>
      rw [hg] at h
      simp at h
    | some g =>
      rw [hg] at h
      simp only [] at h
      by_cases hst :
          (stalePair w sc dest (State.normalizeResource s r) renderer).1 = true
      · rw [if_pos hst] at h
        simp only [Except.ok.injEq, Prod.mk.injEq] at h
        exact h.1.symm
      · rw [if_neg hst] at h
        simp only [Except.ok.injEq, Prod.mk.injEq] at h
        exact h.1.symm

/-- C9 (amended): only add_page normalizes the resource to be relative to the
    project root (the parent of the output directory), so there a resource
    given absolute under the project root and the same resource given
    relative produce the same artifact identifier; copy_page performs no
    normalization and derives the identifier from the path exactly as
    given. -/
theorem resource_normalization_semantics :
    (∀ (w : World) (s : State) (dest rrel : FsPath)
      (compiler : State → FsPath → Except String (Metadata × State))
      (renderer : Renderer) (u1 : Uuid) (s1 : State) (u2 : Uuid) (s2 : State),
      s.output_dir.absolute = true → rrel.absolute = false →
      State.add_page w s dest (s.output_dir.parent.join rrel) compiler
        renderer = Except.ok (u1, s1) →
      State.add_page w s dest rrel compiler renderer = Except.ok (u2, s2) →
      u1 = u2) ∧
    (∀ (w : World) (s : State) (r d : FsPath) (u2 : Uuid) (s2 : State),
      State.copy_page w s r d = Except.ok (u2, s2) →
      u2 = uuid_from_path r) := by
  constructor
  · intro w s dest rrel compiler renderer u1 s1 u2 s2 hout hr h1 h2
    have e1 := add_page_ok_uuid w s dest _ compiler renderer u1 s1 h1
    have e2 := add_page_ok_uuid w s dest _ compiler renderer u2 s2 h2
    rw [e1, e2, normalize_prefixed s rrel hout hr, normalize_relative s rrel hout hr]
    obtain ⟨ab, cs⟩ := rrel
    simp only [] at hr
    rw [hr]
  · intro w s r d u2 s2 h
    exact copy_page_ok_uuid w s r d u2 s2 h

/-- C9 counterexample: copy_page derives the identifier from the resource
    path as given, so the absolute project-rooted form and the relative form
    of the same resource get different identifiers, against the claim that
    both register functions normalize first. -/
theorem copy_page_no_normalization_example :
    okResUuid (State.copy_page wStale baseState ⟨true, ["home", "p", "a"]⟩
      ⟨false, ["d"]⟩) uuidA = uuid_from_path ⟨true, ["home", "p", "a"]⟩ ∧
    okResUuid (State.copy_page wStale baseState ⟨false, ["a"]⟩
      ⟨false, ["d"]⟩) uuidA = uuid_from_path ⟨false, ["a"]⟩ ∧
    uuid_from_path ⟨true, ["home", "p", "a"]⟩ ≠
      uuid_from_path (⟨false, ["a"]⟩ : FsPath) := by
  exact ⟨rfl, rfl, by decide⟩

/-- C9 witness: through add_page the two forms of the same resource agree on
    the identifier. -/
theorem resource_normalization_semantics_witness :
    okResUuid (State.add_page wStale baseState ⟨false, ["d"]⟩
      (baseState.output_dir.parent.join ⟨false, ["a"]⟩) compFix
      Renderer.none) uuidA =
    okResUuid (State.add_page wStale baseState ⟨false, ["d"]⟩ ⟨false, ["a"]⟩
      compFix Renderer.none) uuidA := by
  exact resource_normalization_semantics.1 wStale baseState ⟨false, ["d"]⟩
    ⟨false, ["a"]⟩ compFix Renderer.none _ _ _ _ rfl rfl rfl rfl
